import Mathlib

/-!
# Verification of the composite pipeline metadata DAO of go-mysql-transfer

This file gives a shallow embedding of the metadata-consistency core of the
repository (package `dao`: `CompositePipelineDao` with its cascade writes,
reconciliation passes `refreshAll`/`refreshOne`, the query scans
`GetByParam`/`SelectList`, the driver functions `RefreshMetadata` and
`OnSyncEvent`, plus the `httpapi.BatchEndpoint.Batch` method), and proves
the spec's testable properties about it.

Embedding conventions:
* The bbolt bucket holding serialized pipeline records is modelled as an
  association list sorted by numeric id (bbolt iterates keys, which are
  big-endian encodings of the id, in numeric order).
* Stored bytes are modelled by `Blob`: either a record that
  `proto.Unmarshal` accepts (`Blob.good e`) or malformed bytes
  (`Blob.bad`).  `proto.Marshal` never fails on a well-formed in-memory
  message, so `marshalPipeline` is total.
* Go's `int32` data versions are Lean `Int`s; the single arithmetic
  operation that can overflow (`version + 1` in `CascadeUpdate`) is
  wrapped explicitly with `wrap32`.
* A bbolt `Update` transaction is all-or-nothing: when the callback
  returns an error the transaction is rolled back.  In the embedding a
  function that models such a transaction returns either the new bucket
  contents (commit) or an error (rollback: the caller keeps the old
  bucket).
* The remote coordinator backends (`dao/zookeeper`, `dao/mysql`) are not
  part of the analysed sources; `RemotePipeline` and its operations are
  modelled from the spec's §4.2 contract (CAS `update`, `get`/
  `getDataVersion` returning NotFound when absent, `selectAllDataVersion`,
  and a `CoordinatorUnavailable` failure mode via the `available` flag).
* `CascadeUpdate` performs two remote calls (a version read, then a CAS
  inside the local transaction).  Concurrent writers may change the
  remote between the two calls, so the embedding takes the remote state
  at each call point as separate arguments `r1` (at `GetDataVersion`
  time) and `r2` (at `Update` time); a run without interference is the
  instance `r2 = r1`.
-/

/-- Error taxonomy of the DAO layer (spec §7). -/
inductive DaoErr : Type where
  | notFound
  | versionConflict
  | unavailable
  | serialization
deriving DecidableEq, Repr

/-- `po.PipelineInfo` restricted to the fields the analysed code reads or
writes: id, name, linked source/endpoint ids, endpoint type, status and the
optimistic-concurrency `DataVersion`. -/
structure PipelineInfo : Type where
  Id : Nat
  Name : String
  SourceId : Nat
  EndpointId : Nat
  EndpointType : Nat
  Status : Nat
  DataVersion : Int
deriving DecidableEq, Repr

/-- `po.MetadataVersion`: a lightweight `(id, version)` manifest record. -/
structure MetadataVersion : Type where
  Id : Nat
  Version : Int
deriving DecidableEq, Repr

/-- Bytes stored in a bucket: either bytes that `proto.Unmarshal` decodes to
a `PipelineInfo`, or malformed bytes. -/
inductive Blob : Type where
  | good (e : PipelineInfo)
  | bad
deriving DecidableEq, Repr

/-- `proto.Marshal` of a well-formed in-memory record. -/
def marshalPipeline (e : PipelineInfo) : Blob := Blob.good e

/-- The pipeline bucket: id-keyed association list, sorted by id. -/
abbrev LocalBucket : Type := List (Nat × Blob)

/-- Bucket/store lookup: first binding of the key, if any. -/
def aget {α : Type} : List (Nat × α) → Nat → Option α
  | [], _ => none
  | (k, v) :: rest, id => if k = id then some v else aget rest id

/-- Bucket/store put: replace the binding of the key, or insert it keeping
the list sorted by key (bbolt keys are big-endian encoded ids, so cursor
order is numeric id order). -/
def aput {α : Type} : List (Nat × α) → Nat → α → List (Nat × α)
  | [], id, v => [(id, v)]
  | (k, w) :: rest, id, v =>
    if id < k then (id, v) :: (k, w) :: rest
    else if id = k then (id, v) :: rest
    else (k, w) :: aput rest id v

/-- Bucket/store delete: remove every binding of the key. -/
def adel {α : Type} (l : List (Nat × α)) (id : Nat) : List (Nat × α) :=
  l.filter (fun kv => kv.1 != id)

theorem aget_aput_self {α : Type} (l : List (Nat × α)) (id : Nat) (v : α) :
    aget (aput l id v) id = some v := by
  induction l with
  | nil => simp [aput, aget]
  | cons kv rest ih =>
    obtain ⟨k, w⟩ := kv
    by_cases h1 : id < k
    · simp [aput, h1, aget]
    · by_cases h2 : id = k
      · simp [aput, h1, h2, aget]
      · simp [aput, h1, h2, aget, Ne.symm h2, ih]

theorem aget_aput_ne {α : Type} (l : List (Nat × α)) (id id' : Nat) (v : α)
    (h : id' ≠ id) : aget (aput l id v) id' = aget l id' := by
  induction l with
  | nil => simp [aput, aget, Ne.symm h]
  | cons kv rest ih =>
    obtain ⟨k, w⟩ := kv
    by_cases h1 : id < k
    · simp [aput, h1, aget, Ne.symm h]
    · by_cases h2 : id = k
      · subst h2
        simp [aput, h1, aget, Ne.symm h]
      · by_cases h3 : k = id'
        · subst h3
          simp [aput, h1, h2, aget]
        · simp [aput, h1, h2, aget, h3, ih]

theorem aget_adel_self {α : Type} (l : List (Nat × α)) (id : Nat) :
    aget (adel l id) id = none := by
  induction l with
  | nil => simp [adel, aget]
  | cons kv rest ih =>
    obtain ⟨k, w⟩ := kv
    by_cases h : k = id
    · simpa [adel, h] using ih
    · simpa [adel, h, aget] using ih

theorem aget_adel_ne {α : Type} (l : List (Nat × α)) (id id' : Nat)
    (h : id' ≠ id) : aget (adel l id) id' = aget l id' := by
  induction l with
  | nil => simp [adel, aget]
  | cons kv rest ih =>
    obtain ⟨k, w⟩ := kv
    by_cases hk : k = id
    · subst hk
      simpa [adel, aget, Ne.symm h] using ih
    · by_cases hk' : k = id'
      · subst hk'
        have hb : (k != id) = true := by simpa using hk
        simp [adel, List.filter, hb, aget]
      · simpa [adel, hk, aget, hk'] using ih

/-- Two's-complement wrap of an unbounded integer into `int32`. -/
def wrap32 (x : Int) : Int := (x + 2 ^ 31) % 2 ^ 32 - 2 ^ 31

theorem wrap32_eq_of_range (x : Int) (h1 : -(2 ^ 31) ≤ x) (h2 : x < 2 ^ 31) :
    wrap32 x = x := by
  unfold wrap32
  omega

/-- Modelled from the spec: the remote coordinator backends (`dao/zookeeper`,
`dao/mysql`) behind the `PipelineDao` interface are not part of the analysed
sources.  Per spec §4.2 the coordinator holds the canonical body and version
of every entity; `available = false` models the `CoordinatorUnavailable`
failure mode, under which every call errors. -/
structure RemotePipeline : Type where
  available : Bool
  entries : List (Nat × PipelineInfo)
deriving DecidableEq, Repr

/-- Modelled from the spec: `getDataVersion(id) → version | NotFound`. -/
def RemotePipeline.getDataVersion (r : RemotePipeline) (id : Nat) :
    Except DaoErr Int :=
  if r.available then
    match aget r.entries id with
    | some e => Except.ok e.DataVersion
    | none => Except.error DaoErr.notFound
  else Except.error DaoErr.unavailable

/-- Modelled from the spec: `get(id) → entity | NotFound`. -/
def RemotePipeline.get (r : RemotePipeline) (id : Nat) :
    Except DaoErr PipelineInfo :=
  if r.available then
    match aget r.entries id with
    | some e => Except.ok e
    | none => Except.error DaoErr.notFound
  else Except.error DaoErr.unavailable

/-- Modelled from the spec: `update(entity, expectedVersion)` is a
compare-and-swap that fails with VersionConflict if the current remote
version differs from `expectedVersion`, and otherwise stores the new body. -/
def RemotePipeline.update (r : RemotePipeline) (e : PipelineInfo)
    (expected : Int) : Except DaoErr RemotePipeline :=
  if r.available then
    match aget r.entries e.Id with
    | some cur =>
      if cur.DataVersion = expected then
        Except.ok { r with entries := aput r.entries e.Id e }
      else Except.error DaoErr.versionConflict
    | none => Except.error DaoErr.notFound
  else Except.error DaoErr.unavailable

/-- Modelled from the spec: `selectAllDataVersion() → sequence of
MetadataVersion`, enumerating the remote store without full bodies. -/
def RemotePipeline.selectAllDataVersion (r : RemotePipeline) :
    Except DaoErr (List MetadataVersion) :=
  if r.available then
    Except.ok (r.entries.map (fun kv => MetadataVersion.mk kv.1 kv.2.DataVersion))
  else Except.error DaoErr.unavailable

/-- `true` exactly on `Except.error`. -/
def isErr {ε α : Type} : Except ε α → Bool
  | Except.ok _ => false
  | Except.error _ => true

/-- Go's `x, _ := call()` pattern: the value on success, `nil` on error. -/
def exceptToOption {ε α : Type} : Except ε α → Option α
  | Except.ok a => some a
  | Except.error _ => none

/-- `CompositePipelineDao.Save`: marshal the entity and put it into the local
pipeline bucket (pure local overwrite, no remote call). -/
def Save (entity : PipelineInfo) (lb : LocalBucket) : LocalBucket :=
  aput lb entity.Id (marshalPipeline entity)

/-- `CompositePipelineDao.Delete`: delete the id from the local bucket. -/
def Delete (id : Nat) (lb : LocalBucket) : LocalBucket :=
  adel lb id

/-- `CompositePipelineDao.Get`: read the local bucket; `NotFound` when the
key is absent, a serialization error when the stored bytes do not
unmarshal, otherwise the decoded entity. -/
def Get (lb : LocalBucket) (id : Nat) : Except DaoErr PipelineInfo :=
  match aget lb id with
  | none => Except.error DaoErr.notFound
  | some Blob.bad => Except.error DaoErr.serialization
  | some (Blob.good e) => Except.ok e

/-- Result of `CompositePipelineDao.CascadeUpdate`: the returned
`(int32, error)` pair, the caller's `entity` argument after the call (Go
mutates the pointed-to struct in place), the local bucket and the remote
state after the call. -/
structure CUResult : Type where
  retVer : Int
  retErr : Option DaoErr
  entityArg : PipelineInfo
  localB : LocalBucket
  remoteAfter : RemotePipeline
deriving DecidableEq

/-- `CompositePipelineDao.CascadeUpdate` (src/unnamed/part_000:145-173).
Reads the current remote version (remote state `r1`), mutates
`entity.DataVersion` to `version + 1`, then runs a local transaction that
puts the marshalled entity into the pipeline bucket and issues the remote
CAS `Update(entity, version)` (remote state `r2`, possibly changed by
concurrent writers since the read).  An error from the CAS makes the
transaction roll back, leaving the local bucket untouched, and the pair
`(version, err)` is returned; on success the new version
`entity.DataVersion` is returned. -/
def CascadeUpdate (entity : PipelineInfo) (lb : LocalBucket)
    (r1 r2 : RemotePipeline) : CUResult :=
  match r1.getDataVersion entity.Id with
  | Except.error e => CUResult.mk 0 (some e) entity lb r1
  | Except.ok version =>
    let entity' : PipelineInfo := { entity with DataVersion := wrap32 (version + 1) }
    match r2.update entity' version with
    | Except.error e => CUResult.mk version (some e) entity' lb r2
    | Except.ok r2' =>
      CUResult.mk entity'.DataVersion none entity'
        (aput lb entity'.Id (marshalPipeline entity')) r2'

/-- `pat` is a leading segment of the character list. -/
def leadsWith : List Char → List Char → Bool
  | [], _ => true
  | _ :: _, [] => false
  | a :: as, b :: bs => (a == b) && leadsWith as bs

/-- `pat` occurs contiguously somewhere in the character list. -/
def hasSub (pat : List Char) : List Char → Bool
  | [] => leadsWith pat []
  | c :: rest => leadsWith pat (c :: rest) || hasSub pat rest

/-- Go's `strings.Contains(s, sub)`. -/
def strContains (s sub : String) : Bool := hasSub sub.data s.data

/-- Modelled from the spec: `constants.PipelineInfoStatusDisable` (the
constants package is not among the analysed sources; the concrete numeric
value is irrelevant to every claim, only disequality with other statuses). -/
def pipelineInfoStatusDisable : Nat := 0

/-- `vo.PipelineInfoParams` restricted to the fields the scans read. -/
structure PipelineInfoParams : Type where
  Name : String
  SourceId : Nat
  EndpointId : Nat
  EndpointType : Nat
  Enable : Bool
deriving DecidableEq, Repr

/-- The filter applied by `CompositePipelineDao.GetByParam`
(src/unnamed/part_000:213-246) to each record that unmarshals: a non-empty
name filter requires the names to be equal (`entity.Name != params.Name`
skips), and non-zero link ids require equality. -/
def matchesParamFilter (params : PipelineInfoParams) (e : PipelineInfo) : Bool :=
  (params.Name == "" || e.Name == params.Name) &&
  (params.SourceId == 0 || e.SourceId == params.SourceId) &&
  (params.EndpointId == 0 || e.EndpointId == params.EndpointId)

/-- The filter applied by `CompositePipelineDao.SelectList`
(src/unnamed/part_000:248-282) to each record that unmarshals: a non-empty
name filter requires `strings.Contains(entity.Name, params.Name)`, non-zero
link ids and endpoint type require equality, and with `Enable` set a
disabled record is skipped. -/
def matchesListFilter (params : PipelineInfoParams) (e : PipelineInfo) : Bool :=
  (params.Name == "" || strContains e.Name params.Name) &&
  (params.SourceId == 0 || e.SourceId == params.SourceId) &&
  (params.EndpointId == 0 || e.EndpointId == params.EndpointId) &&
  (params.EndpointType == 0 || e.EndpointType == params.EndpointType) &&
  (!params.Enable || !(e.Status == pipelineInfoStatusDisable))

/-- The cursor loop of `GetByParam`: first record that unmarshals and passes
the filter; records whose bytes fail to unmarshal are skipped
(`if err := proto.Unmarshal(v, &entity); err == nil`). -/
def getByParamScan (params : PipelineInfoParams) : LocalBucket → Option PipelineInfo
  | [] => none
  | (_, Blob.bad) :: rest => getByParamScan params rest
  | (_, Blob.good e) :: rest =>
    if matchesParamFilter params e then some e else getByParamScan params rest

/-- `CompositePipelineDao.GetByParam` (src/unnamed/part_000:213-246): scan
the bucket; NotFound when no record matched.  The `View` callback always
returns nil, so the error/log branch after it is unreachable. -/
def GetByParam (params : PipelineInfoParams) (lb : LocalBucket) :
    Except DaoErr PipelineInfo :=
  match getByParamScan params lb with
  | some e => Except.ok e
  | none => Except.error DaoErr.notFound

/-- The cursor loop of `SelectList`: collect, in key order, every record
that unmarshals and passes the filter; malformed records are skipped. -/
def selectScan (params : PipelineInfoParams) : LocalBucket → List PipelineInfo
  | [] => []
  | (_, Blob.bad) :: rest => selectScan params rest
  | (_, Blob.good e) :: rest =>
    if matchesListFilter params e then e :: selectScan params rest
    else selectScan params rest

/-- `CompositePipelineDao.SelectList` (src/unnamed/part_000:248-282): the
returned list plus the log lines emitted during the call.  The only log
statement in `SelectList` is `log.Error(err.Error())` in the branch where
the `View` transaction returns an error; the scan callback always returns
nil, so that branch is unreachable and no log line is ever emitted —
in particular none for a record that fails to unmarshal. -/
def SelectList (params : PipelineInfoParams) (lb : LocalBucket) :
    (Except DaoErr (List PipelineInfo)) × List String :=
  (Except.ok (selectScan params lb), [])

/-- `CompositePipelineDao.refreshOne` (src/unnamed/part_000:358-386).
Fetches the remote entity (`_remotePipelineDao.Get`), propagating its error;
then reads the local copy via `s.Get`, propagating its error — note that
`s.Get` returns NotFound when the local copy is absent, so the code below
the two reads only runs when a local copy exists and unmarshals, making the
`version := -1` default and the `nil == standardEntity && nil != entity`
deletion branch of the source unreachable.  When the local version is below
`standardVersion` the remote body is saved locally (`s.Save`). -/
def refreshOne (id : Nat) (standardVersion : Int) (lb : LocalBucket)
    (r : RemotePipeline) : Except DaoErr LocalBucket :=
  match r.get id with
  | Except.error e => Except.error e
  | Except.ok standardEntity =>
    match Get lb id with
    | Except.error e => Except.error e
    | Except.ok entity =>
      if entity.DataVersion < standardVersion then
        Except.ok (Save standardEntity lb)
      else Except.ok lb

/-- The local bucket observed after an operation that models a transaction:
the committed contents on success, the untouched previous contents after an
error (rollback / early return before any local write). -/
def localAfter (lb : LocalBucket) : Except DaoErr LocalBucket → LocalBucket
  | Except.ok lb' => lb'
  | Except.error _ => lb

/-- The update-collection loop of `refreshAll`
(src/unnamed/part_000:310-329).  For each manifest entry: read the local
copy with `entity, _ := s.Get(standard.Id)` (error discarded, so an absent
or malformed local record leaves `entity` nil); skip the entry when a local
copy exists with `DataVersion >= standard.Version`; otherwise fetch the full
body from the remote, aborting the whole pass on a remote error.  Returns
the collected bodies together with the ids for which a remote `Get` call
was issued. -/
def collectUpdates (lb : LocalBucket) (r : RemotePipeline) :
    List MetadataVersion → (Except DaoErr (List PipelineInfo)) × List Nat
  | [] => (Except.ok [], [])
  | standard :: rest =>
    match exceptToOption (Get lb standard.Id) with
    | some entity =>
      if standard.Version ≤ entity.DataVersion then
        collectUpdates lb r rest
      else
        match r.get standard.Id with
        | Except.error er => (Except.error er, [standard.Id])
        | Except.ok standardEntity =>
          match collectUpdates lb r rest with
          | (Except.error er, tr) => (Except.error er, standard.Id :: tr)
          | (Except.ok ses, tr) => (Except.ok (standardEntity :: ses), standard.Id :: tr)
    | none =>
      match r.get standard.Id with
      | Except.error er => (Except.error er, [standard.Id])
      | Except.ok standardEntity =>
        match collectUpdates lb r rest with
        | (Except.error er, tr) => (Except.error er, standard.Id :: tr)
        | (Except.ok ses, tr) => (Except.ok (standardEntity :: ses), standard.Id :: tr)

/-- `CompositePipelineDao.refreshAll` (src/unnamed/part_000:284-356).
Collects the local ids from the bucket cursor, computes the deletions
(local ids matching no manifest entry), collects the update bodies with
`collectUpdates`, and applies all deletions then all updates in a single
local transaction.  Returns the bucket outcome paired with the ids fetched
from the remote. -/
def refreshAll (standards : List MetadataVersion) (lb : LocalBucket)
    (r : RemotePipeline) : (Except DaoErr LocalBucket) × List Nat :=
  let locals : List Nat := lb.map (fun kv => kv.1)
  let deletions : List Nat :=
    locals.filter (fun id => !(standards.any (fun standard => standard.Id == id)))
  match collectUpdates lb r standards with
  | (Except.error er, tr) => (Except.error er, tr)
  | (Except.ok updates, tr) =>
    let lb1 : LocalBucket := deletions.foldl (fun b id => adel b id) lb
    let lb2 : LocalBucket :=
      updates.foldl (fun b e => aput b e.Id (marshalPipeline e)) lb1
    (Except.ok lb2, tr)

/-- A row event request handed to `BatchEndpoint.Batch`; its contents are
opaque to the analysed method, which only passes it to the parsers. -/
structure RowEventRequest : Type where
  tag : Nat
deriving DecidableEq, Repr

/-- An error surfaced by a parse step in `BatchEndpoint.Batch`. -/
structure BatchErr : Type where
  tag : Nat
deriving DecidableEq, Repr

/-- A RocketMQ `primitive.Message`; opaque here, only its count matters. -/
inductive RocketMessage : Type where
  | mk
deriving DecidableEq, Repr

/-- `bo.RuleContext` restricted to the single method `Batch` calls on it. -/
structure RuleContext : Type where
  luaEnable : Bool
deriving DecidableEq, Repr

/-- `ctx.IsLuaEnable()`. -/
def RuleContext.IsLuaEnable (ctx : RuleContext) : Bool := ctx.luaEnable

/-- The per-request loop of `Batch`: run the parser on each request in
order, returning the first error, if any.  (`Endpoint.parseByLua` /
`Endpoint.parseByRegular` are not among the analysed sources, so the parser
is an arbitrary function argument.) -/
def firstParseErr (parse : RowEventRequest → Except BatchErr Unit) :
    List RowEventRequest → Option BatchErr
  | [] => none
  | request :: rest =>
    match parse request with
    | Except.error e => some e
    | Except.ok _ => firstParseErr parse rest

/-- `BatchEndpoint.Batch` (src/unnamed/part_000:41-64).  Declares
`var messages []*primitive.Message`, parses every request with the Lua or
the regular parser (returning `(0, err)` on the first parse error), and
then — since nothing is ever appended to `messages` — hits the
`len(messages) == 0` early return.  Result: the returned `(int64, error)`
pair, with the error component as an `Option`. -/
def Batch (requests : List RowEventRequest) (ctx : RuleContext)
    (parseByLua : RowEventRequest → Except BatchErr Unit)
    (parseByRegular : RowEventRequest → Except BatchErr Unit) :
    Int × Option BatchErr :=
  let messages : List RocketMessage := []
  match (if ctx.IsLuaEnable then firstParseErr parseByLua requests
         else firstParseErr parseByRegular requests) with
  | some e => (0, some e)
  | none =>
    if messages.length = 0 then (0, none)
    else ((messages.length : Int), none)

/-- Modelled from the spec: `constants.SyncEventType*` discriminants of
`bo.SyncEvent` (the constants/bo packages are not among the analysed
sources). -/
inductive SyncEventType : Type where
  | source
  | endpoint
  | pipeline
deriving DecidableEq, Repr

/-- `bo.SyncEvent`: entity kind, id and new version.  The source's field
`Type` is called `Kind` here because `Type` is reserved in Lean. -/
structure SyncEvent : Type where
  Kind : SyncEventType
  Id : Nat
  Version : Int
deriving DecidableEq, Repr

/-- The metadata state a node sees: one local bucket and one remote store
per entity kind.  Modelled from the spec for the source and endpoint kinds:
`CompositeSourceDao` and `CompositeEndpointDao` are not among the analysed
sources, and per spec §4.3 every entity kind follows the same operation
pattern, so their `refreshAll`/`refreshOne` are the same functions that the
analysed `CompositePipelineDao` defines. -/
structure MetaState : Type where
  sourceB : LocalBucket
  endpointB : LocalBucket
  pipelineB : LocalBucket
  remoteSource : RemotePipeline
  remoteEndpoint : RemotePipeline
  remotePipeline : RemotePipeline
deriving DecidableEq

/-- Outcome of running a top-level procedure that may call Go's `panic`:
either a normal result or a process-crashing panic with its message. -/
inductive RunOutcome (α : Type) : Type where
  | ok (a : α)
  | panicked (msg : String)
deriving DecidableEq

/-- `dao.RefreshMetadata` (src/unnamed/part_001:174-200).  For each entity
kind in turn: `SelectAllDataVersion` on the remote, then `refreshAll`; any
error from either call is turned into `panic(...)`, crashing the process. -/
def RefreshMetadata (st : MetaState) : RunOutcome MetaState :=
  match st.remoteSource.selectAllDataVersion with
  | Except.error _ => RunOutcome.panicked "刷新[SourceInfo]数据失败"
  | Except.ok sources =>
    match refreshAll sources st.sourceB st.remoteSource with
    | (Except.error _, _) => RunOutcome.panicked "刷新[SourceInfo]元数据失败"
    | (Except.ok sb, _) =>
      match st.remoteEndpoint.selectAllDataVersion with
      | Except.error _ => RunOutcome.panicked "刷新[EndpointInfo]数据失败"
      | Except.ok endpoints =>
        match refreshAll endpoints st.endpointB st.remoteEndpoint with
        | (Except.error _, _) => RunOutcome.panicked "刷新[EndpointInfo]元数据失败"
        | (Except.ok eb, _) =>
          match st.remotePipeline.selectAllDataVersion with
          | Except.error _ => RunOutcome.panicked "刷新[PipelineInfo]数据失败"
          | Except.ok pipelines =>
            match refreshAll pipelines st.pipelineB st.remotePipeline with
            | (Except.error _, _) => RunOutcome.panicked "刷新[PipelineInfo]元数据失败"
            | (Except.ok pb, _) =>
              RunOutcome.ok { st with sourceB := sb, endpointB := eb, pipelineB := pb }

/-- `dao.OnSyncEvent` (src/unnamed/part_001:202-220).  Dispatches the event
to the matching kind's `refreshOne`; an error is logged with
`log.Errorf(...)` and otherwise ignored — the function never panics and
leaves the failed kind's bucket untouched.  Returns the new state and the
log lines emitted. -/
def OnSyncEvent (event : SyncEvent) (st : MetaState) : MetaState × List String :=
  match event.Kind with
  | SyncEventType.source =>
    match refreshOne event.Id event.Version st.sourceB st.remoteSource with
    | Except.error _ => (st, ["刷新[SourceInfo]数据失败"])
    | Except.ok sb => ({ st with sourceB := sb }, [])
  | SyncEventType.endpoint =>
    match refreshOne event.Id event.Version st.endpointB st.remoteEndpoint with
    | Except.error _ => (st, ["刷新[EndpointInfo]数据失败"])
    | Except.ok eb => ({ st with endpointB := eb }, [])
  | SyncEventType.pipeline =>
    match refreshOne event.Id event.Version st.pipelineB st.remotePipeline with
    | Except.error _ => (st, ["刷新[PipelineInfo]数据失败"])
    | Except.ok pb => ({ st with pipelineB := pb }, [])

theorem wrap32_ne_pred (v : Int) : wrap32 (v + 1) ≠ v := by
  unfold wrap32
  omega

/-- C1: if `CascadeUpdate(entity)` succeeds when the remote coordinator's
stored version for `entity.Id` is `v`, then afterwards the entity body
stored in the local pipeline bucket has dataVersion `v+1`, the remote
coordinator's version for that id is `v+1`, and `CascadeUpdate` returns
`v+1`.  The hypotheses say the version read returns `v` and that the remote
still holds version `v` at CAS time (exactly the successful runs), with
`v+1` not overflowing int32. -/
theorem c1_cascadeUpdate_success (entity : PipelineInfo) (lb : LocalBucket)
    (r1 r2 : RemotePipeline) (v : Int)
    (h1 : r1.getDataVersion entity.Id = Except.ok v)
    (h2 : r2.getDataVersion entity.Id = Except.ok v)
    (hlo : -(2 ^ 31) ≤ v) (hhi : v + 1 < 2 ^ 31) :
    (CascadeUpdate entity lb r1 r2).retErr = none ∧
    (CascadeUpdate entity lb r1 r2).retVer = v + 1 ∧
    aget (CascadeUpdate entity lb r1 r2).localB entity.Id =
      some (Blob.good { entity with DataVersion := v + 1 }) ∧
    (CascadeUpdate entity lb r1 r2).remoteAfter.getDataVersion entity.Id =
      Except.ok (v + 1) := by
  have hw : wrap32 (v + 1) = v + 1 := wrap32_eq_of_range _ (by omega) hhi
  unfold RemotePipeline.getDataVersion at h2
  by_cases ha : r2.available
  · rw [if_pos ha] at h2
    cases hcur : aget r2.entries entity.Id with
    | none => rw [hcur] at h2; cases h2
    | some cur =>
      rw [hcur] at h2
      have hver : cur.DataVersion = v := by
        cases h2
        rfl
      have hup : r2.update { entity with DataVersion := wrap32 (v + 1) } v =
          Except.ok { r2 with
            entries := aput r2.entries entity.Id { entity with DataVersion := wrap32 (v + 1) } } := by
        unfold RemotePipeline.update
        rw [if_pos ha]
        simp [hcur, hver]
      have hcu : CascadeUpdate entity lb r1 r2 =
          CUResult.mk (wrap32 (v + 1)) none { entity with DataVersion := wrap32 (v + 1) }
            (aput lb entity.Id (marshalPipeline { entity with DataVersion := wrap32 (v + 1) }))
            { r2 with entries := aput r2.entries entity.Id { entity with DataVersion := wrap32 (v + 1) } } := by
        unfold CascadeUpdate
        rw [h1]
        simp only [hup]
      rw [hcu]
      refine ⟨rfl, by simpa using hw, ?_, ?_⟩
      · simp [marshalPipeline, aget_aput_self, hw]
      · simp [RemotePipeline.getDataVersion, ha, aget_aput_self, hw]
  · rw [if_neg ha] at h2
    cases h2

def c1Entity : PipelineInfo := PipelineInfo.mk 1 "p1" 10 20 0 1 0

def c1Remote : RemotePipeline :=
  RemotePipeline.mk true [(1, PipelineInfo.mk 1 "p1" 10 20 0 1 3)]

theorem c1_witness :
    c1Remote.getDataVersion 1 = Except.ok 3 ∧
    ((CascadeUpdate c1Entity [] c1Remote c1Remote).retErr = none ∧
     (CascadeUpdate c1Entity [] c1Remote c1Remote).retVer = 3 + 1 ∧
     aget (CascadeUpdate c1Entity [] c1Remote c1Remote).localB c1Entity.Id =
       some (Blob.good { c1Entity with DataVersion := 3 + 1 }) ∧
     (CascadeUpdate c1Entity [] c1Remote c1Remote).remoteAfter.getDataVersion
       c1Entity.Id = Except.ok (3 + 1)) :=
  ⟨rfl, c1_cascadeUpdate_success c1Entity [] c1Remote c1Remote 3 rfl rfl
    (by norm_num) (by norm_num)⟩

/-- C2: if the remote compare-and-swap issued by `CascadeUpdate(entity)`
returns an error, then `CascadeUpdate` returns an error and both the locally
stored body for `entity.Id` and the remote copy are exactly what they were
before the call: the local transaction is rolled back (`localB = lb`) and
the failed CAS leaves the remote store untouched (`remoteAfter = r2`, the
remote state the CAS ran against). -/
theorem c2_cascadeUpdate_cas_fail_noop (entity : PipelineInfo)
    (lb : LocalBucket) (r1 r2 : RemotePipeline) (v : Int)
    (h1 : r1.getDataVersion entity.Id = Except.ok v)
    (h2 : isErr (r2.update { entity with DataVersion := wrap32 (v + 1) } v) = true) :
    (∃ er, (CascadeUpdate entity lb r1 r2).retErr = some er) ∧
    (CascadeUpdate entity lb r1 r2).localB = lb ∧
    (CascadeUpdate entity lb r1 r2).remoteAfter = r2 := by
  cases hu : r2.update { entity with DataVersion := wrap32 (v + 1) } v with
  | ok r2' =>
    rw [hu] at h2
    simp [isErr] at h2
  | error er =>
    have hcu : CascadeUpdate entity lb r1 r2 =
        CUResult.mk v (some er) { entity with DataVersion := wrap32 (v + 1) } lb r2 := by
      unfold CascadeUpdate
      rw [h1]
      simp only [hu]
    rw [hcu]
    exact ⟨⟨er, rfl⟩, rfl, rfl⟩

def c2Entity : PipelineInfo := PipelineInfo.mk 1 "p1" 10 20 0 1 3

def c2Remote1 : RemotePipeline :=
  RemotePipeline.mk true [(1, PipelineInfo.mk 1 "p1" 10 20 0 1 3)]

def c2Remote2 : RemotePipeline :=
  RemotePipeline.mk true [(1, PipelineInfo.mk 1 "p1-other" 10 20 0 1 7)]

def c2Bucket : LocalBucket := [(1, Blob.good (PipelineInfo.mk 1 "p1" 10 20 0 1 3))]

theorem c2_witness :
    c2Remote1.getDataVersion 1 = Except.ok 3 ∧
    ((∃ er, (CascadeUpdate c2Entity c2Bucket c2Remote1 c2Remote2).retErr = some er) ∧
     (CascadeUpdate c2Entity c2Bucket c2Remote1 c2Remote2).localB = c2Bucket ∧
     (CascadeUpdate c2Entity c2Bucket c2Remote1 c2Remote2).remoteAfter = c2Remote2) :=
  ⟨rfl, c2_cascadeUpdate_cas_fail_noop c2Entity c2Bucket c2Remote1 c2Remote2 3 rfl rfl⟩

/-- C10: whenever `CascadeUpdate(entity)` fails after successfully reading
the remote version `v`, it returns the pair `(v, error)` — the old remote
version, not `0` and not the new version — and the caller's `entity`
argument has been mutated in place to `DataVersion = v + 1` (int32-wrapped)
without being restored, so the in-memory argument disagrees with the
unchanged stored copies (its version differs from the remote's stored `v`,
and the local bucket still holds its old bytes). -/
theorem c10_cascadeUpdate_fail_frame (entity : PipelineInfo)
    (lb : LocalBucket) (r1 r2 : RemotePipeline) (v : Int)
    (h1 : r1.getDataVersion entity.Id = Except.ok v)
    (h2 : isErr (r2.update { entity with DataVersion := wrap32 (v + 1) } v) = true) :
    (CascadeUpdate entity lb r1 r2).retVer = v ∧
    (∃ er, (CascadeUpdate entity lb r1 r2).retErr = some er) ∧
    (CascadeUpdate entity lb r1 r2).entityArg = { entity with DataVersion := wrap32 (v + 1) } ∧
    (CascadeUpdate entity lb r1 r2).entityArg.DataVersion ≠ v ∧
    (CascadeUpdate entity lb r1 r2).localB = lb ∧
    (CascadeUpdate entity lb r1 r2).remoteAfter = r2 := by
  cases hu : r2.update { entity with DataVersion := wrap32 (v + 1) } v with
  | ok r2' =>
    rw [hu] at h2
    simp [isErr] at h2
  | error er =>
    have hcu : CascadeUpdate entity lb r1 r2 =
        CUResult.mk v (some er) { entity with DataVersion := wrap32 (v + 1) } lb r2 := by
      unfold CascadeUpdate
      rw [h1]
      simp only [hu]
    rw [hcu]
    refine ⟨rfl, ⟨er, rfl⟩, rfl, ?_, rfl, rfl⟩
    simpa using wrap32_ne_pred v

def c10Entity : PipelineInfo := PipelineInfo.mk 2 "p2" 11 21 0 1 5

def c10Remote1 : RemotePipeline :=
  RemotePipeline.mk true [(2, PipelineInfo.mk 2 "p2" 11 21 0 1 5)]

def c10Remote2 : RemotePipeline :=
  RemotePipeline.mk true [(2, PipelineInfo.mk 2 "p2-race" 11 21 0 1 6)]

def c10Bucket : LocalBucket := [(2, Blob.good (PipelineInfo.mk 2 "p2" 11 21 0 1 5))]

theorem c10_witness :
    c10Remote1.getDataVersion 2 = Except.ok 5 ∧
    ((CascadeUpdate c10Entity c10Bucket c10Remote1 c10Remote2).retVer = 5 ∧
     (∃ er, (CascadeUpdate c10Entity c10Bucket c10Remote1 c10Remote2).retErr = some er) ∧
     (CascadeUpdate c10Entity c10Bucket c10Remote1 c10Remote2).entityArg =
       { c10Entity with DataVersion := wrap32 (5 + 1) } ∧
     (CascadeUpdate c10Entity c10Bucket c10Remote1 c10Remote2).entityArg.DataVersion ≠ 5 ∧
     (CascadeUpdate c10Entity c10Bucket c10Remote1 c10Remote2).localB = c10Bucket ∧
     (CascadeUpdate c10Entity c10Bucket c10Remote1 c10Remote2).remoteAfter = c10Remote2) :=
  ⟨rfl, c10_cascadeUpdate_fail_frame c10Entity c10Bucket c10Remote1 c10Remote2 5 rfl rfl⟩

/-- C5: if the local cache holds a copy of `id` whose dataVersion is at
least `v`, then `refreshOne(id, v)` leaves the local bucket unchanged: both
comparison branches fall through to the no-op return, and every error path
returns before any local write. -/
theorem c5_refreshOne_fresh_noop (id : Nat) (v : Int) (lb : LocalBucket)
    (r : RemotePipeline) (e : PipelineInfo)
    (hget : aget lb id = some (Blob.good e)) (hv : v ≤ e.DataVersion) :
    localAfter lb (refreshOne id v lb r) = lb := by
  unfold refreshOne
  cases hr : r.get id with
  | error er => rfl
  | ok se =>
    have hGet : Get lb id = Except.ok e := by
      unfold Get
      rw [hget]
    rw [hGet]
    have hnl : ¬ e.DataVersion < v := not_lt.mpr hv
    simp [localAfter, hnl]

def c5Bucket : LocalBucket := [(7, Blob.good (PipelineInfo.mk 7 "p7" 1 2 0 1 5))]

def c5Remote : RemotePipeline :=
  RemotePipeline.mk true [(7, PipelineInfo.mk 7 "p7" 1 2 0 1 5)]

theorem c5_witness :
    aget c5Bucket 7 = some (Blob.good (PipelineInfo.mk 7 "p7" 1 2 0 1 5)) ∧
    localAfter c5Bucket (refreshOne 7 5 c5Bucket c5Remote) = c5Bucket :=
  ⟨rfl, c5_refreshOne_fresh_noop 7 5 c5Bucket c5Remote
    (PipelineInfo.mk 7 "p7" 1 2 0 1 5) rfl (by norm_num)⟩

def c3Remote : RemotePipeline :=
  RemotePipeline.mk true [(5, PipelineInfo.mk 5 "p5" 1 2 0 1 2)]

/-- C3 (code bug): the remote coordinator holds pipeline id 5 at version 2
and the local bucket has no copy of id 5, yet `refreshOne(5, 2)` returns
the local `Get`'s NotFound error and stores nothing, instead of treating
the absent copy as stale and inserting the remote body: the early
`if err != nil { return err }` after `s.Get` makes the `version := -1`
default and the nil-entity handling below it unreachable. -/
theorem c3_refreshOne_absent_local_is_error :
    c3Remote.get 5 = Except.ok (PipelineInfo.mk 5 "p5" 1 2 0 1 2) ∧
    aget ([] : LocalBucket) 5 = none ∧
    refreshOne 5 2 [] c3Remote = Except.error DaoErr.notFound :=
  ⟨rfl, rfl, rfl⟩

theorem firstParseErr_eq_none (parse : RowEventRequest → Except BatchErr Unit)
    (requests : List RowEventRequest)
    (h : ∀ request ∈ requests, isErr (parse request) = false) :
    firstParseErr parse requests = none := by
  induction requests with
  | nil => rfl
  | cons q rest ih =>
    have hq : isErr (parse q) = false := h q (List.mem_cons_self q rest)
    cases hp : parse q with
    | error e =>
      rw [hp] at hq
      simp [isErr] at hq
    | ok u =>
      have : firstParseErr parse rest = none :=
        ih (fun request hm => h request (List.mem_cons_of_mem q hm))
      simp [firstParseErr, hp, this]

/-- C9: if every per-request parse step (Lua or regular, whichever the rule
context selects) succeeds, `BatchEndpoint.Batch` returns processed count 0
and no error regardless of how many requests were supplied: the `messages`
slice is declared but never appended to, so the `len(messages) == 0` early
return is always taken. -/
theorem c9_batch_returns_zero (requests : List RowEventRequest)
    (ctx : RuleContext)
    (parseByLua parseByRegular : RowEventRequest → Except BatchErr Unit)
    (h : ∀ request ∈ requests,
      isErr ((if ctx.IsLuaEnable then parseByLua else parseByRegular) request) = false) :
    Batch requests ctx parseByLua parseByRegular = (0, none) := by
  by_cases hl : ctx.IsLuaEnable
  · have hnone : firstParseErr parseByLua requests = none := by
      apply firstParseErr_eq_none
      intro request hm
      have := h request hm
      rwa [if_pos hl] at this
    simp [Batch, hl, hnone]
  · have hnone : firstParseErr parseByRegular requests = none := by
      apply firstParseErr_eq_none
      intro request hm
      have := h request hm
      rwa [if_neg hl] at this
    simp [Batch, hl, hnone]

def c9Requests : List RowEventRequest :=
  [RowEventRequest.mk 1, RowEventRequest.mk 2, RowEventRequest.mk 3]

def c9ParseOk : RowEventRequest → Except BatchErr Unit := fun _ => Except.ok ()

theorem c9_witness :
    (∀ request ∈ c9Requests,
      isErr ((if (RuleContext.mk true).IsLuaEnable then c9ParseOk else c9ParseOk)
        request) = false) ∧
    Batch c9Requests (RuleContext.mk true) c9ParseOk c9ParseOk = (0, none) :=
  ⟨fun _ _ => rfl,
   c9_batch_returns_zero c9Requests (RuleContext.mk true) c9ParseOk c9ParseOk
     (fun _ _ => rfl)⟩

def c7Entity : PipelineInfo := PipelineInfo.mk 1 "abc" 10 20 0 1 0

def c7Bucket : LocalBucket := [(1, Blob.good c7Entity)]

def c7Params : PipelineInfoParams := PipelineInfoParams.mk "b" 0 0 0 false

/-- C7 counterexample: the stored record's name `"abc"` strictly contains
the filter name `"b"`, so by the claim both operations should match it —
but `GetByParam`, whose name predicate is exact equality
(`entity.Name != params.Name` skips), returns NotFound, while `SelectList`
(substring match) does return the record. -/
theorem c7_counterexample :
    strContains c7Entity.Name c7Params.Name = true ∧
    c7Entity.Name ≠ c7Params.Name ∧
    (SelectList c7Params c7Bucket).1 = Except.ok [c7Entity] ∧
    GetByParam c7Params c7Bucket = Except.error DaoErr.notFound :=
  ⟨rfl, by decide, rfl, rfl⟩

theorem getByParamScan_matches (params : PipelineInfoParams) :
    ∀ (lb : List (Nat × Blob)) (e : PipelineInfo),
      getByParamScan params lb = some e → matchesParamFilter params e = true := by
  intro lb
  induction lb with
  | nil =>
    intro e h
    simp [getByParamScan] at h
  | cons kv rest ih =>
    intro e h
    obtain ⟨k, b⟩ := kv
    cases b with
    | bad => exact ih e (by simpa [getByParamScan] using h)
    | good g =>
      cases hm : matchesParamFilter params g with
      | true =>
        rw [getByParamScan, if_pos hm] at h
        cases h
        exact hm
      | false =>
        rw [getByParamScan, if_neg (by simp [hm])] at h
        exact ih e h

theorem getByParamScan_eq_none (params : PipelineInfoParams) :
    ∀ lb : List (Nat × Blob),
      (∀ id e, (id, Blob.good e) ∈ lb → matchesParamFilter params e = false) →
      getByParamScan params lb = none := by
  intro lb
  induction lb with
  | nil => intro _; rfl
  | cons kv rest ih =>
    intro h
    obtain ⟨k, b⟩ := kv
    cases b with
    | bad =>
      rw [getByParamScan]
      exact ih (fun id e hm => h id e (List.mem_cons_of_mem _ hm))
    | good g =>
      have hg : matchesParamFilter params g = false :=
        h k g (List.mem_cons_self _ _)
      rw [getByParamScan, if_neg (by simp [hg])]
      exact ih (fun id e hm => h id e (List.mem_cons_of_mem _ hm))

theorem selectScan_sound (params : PipelineInfoParams) :
    ∀ lb : List (Nat × Blob),
      ∀ e ∈ selectScan params lb, matchesListFilter params e = true := by
  intro lb
  induction lb with
  | nil =>
    intro e h
    simp [selectScan] at h
  | cons kv rest ih =>
    intro e h
    obtain ⟨k, b⟩ := kv
    cases b with
    | bad => exact ih e (by simpa [selectScan] using h)
    | good g =>
      cases hm : matchesListFilter params g with
      | true =>
        rw [selectScan, if_pos hm] at h
        rcases List.mem_cons.mp h with h1 | h2
        · subst h1; exact hm
        · exact ih e h2
      | false =>
        rw [selectScan, if_neg (by simp [hm])] at h
        exact ih e h

theorem selectScan_complete (params : PipelineInfoParams) :
    ∀ (lb : List (Nat × Blob)) (id : Nat) (e : PipelineInfo),
      (id, Blob.good e) ∈ lb → matchesListFilter params e = true →
      e ∈ selectScan params lb := by
  intro lb
  induction lb with
  | nil =>
    intro id e h _
    cases h
  | cons kv rest ih =>
    intro id e h hm
    rcases List.mem_cons.mp h with h1 | h2
    · rw [← h1]
      rw [selectScan, if_pos hm]
      exact List.mem_cons_self _ _
    · obtain ⟨k, b⟩ := kv
      cases b with
      | bad =>
        rw [selectScan]
        exact ih id e h2 hm
      | good g =>
        cases hg : matchesListFilter params g with
        | true =>
          rw [selectScan, if_pos hg]
          exact List.mem_cons_of_mem _ (ih id e h2 hm)
        | false =>
          rw [selectScan, if_neg (by simp [hg])]
          exact ih id e h2 hm

/-- C7 amended: with a non-empty name filter, `SelectList` matches a stored
record's name by substring containment while `GetByParam` matches it by
exact equality; link-id filters (sourceId, endpointId) match by exact
equality in both, and `GetByParam` fails with NotFound exactly when no
decodable record passes its (equality-based) predicate. -/
theorem c7_amended_filters (params : PipelineInfoParams) (lb : LocalBucket) :
    (∀ e, GetByParam params lb = Except.ok e → matchesParamFilter params e = true) ∧
    ((∀ id e, (id, Blob.good e) ∈ lb → matchesParamFilter params e = false) →
      GetByParam params lb = Except.error DaoErr.notFound) ∧
    (SelectList params lb).1 = Except.ok (selectScan params lb) ∧
    (∀ e ∈ selectScan params lb, matchesListFilter params e = true) ∧
    (∀ id e, (id, Blob.good e) ∈ lb → matchesListFilter params e = true →
      e ∈ selectScan params lb) := by
  refine ⟨?_, ?_, rfl, selectScan_sound params lb, selectScan_complete params lb⟩
  · intro e h
    unfold GetByParam at h
    cases hs : getByParamScan params lb with
    | none => rw [hs] at h; cases h
    | some g =>
      rw [hs] at h
      cases h
      exact getByParamScan_matches params lb e hs
  · intro h
    unfold GetByParam
    rw [getByParamScan_eq_none params lb h]

theorem c7_amended_witness :
    matchesListFilter c7Params c7Entity = true ∧
    c7Entity ∈ selectScan c7Params c7Bucket ∧
    GetByParam c7Params c7Bucket = Except.error DaoErr.notFound := by
  refine ⟨rfl, ?_, ?_⟩
  · exact (c7_amended_filters c7Params c7Bucket).2.2.2.2 1 c7Entity
      (List.mem_cons_self _ _) rfl
  · exact (c7_amended_filters c7Params c7Bucket).2.1
      (by
        intro id e hm
        have : (id, Blob.good e) = (1, Blob.good c7Entity) := by
          simpa [c7Bucket] using hm
        cases this
        rfl)

/-- The bucket with every malformed record removed. -/
def purgeBad (lb : LocalBucket) : LocalBucket :=
  lb.filter (fun kv =>
    match kv.2 with
    | Blob.good _ => true
    | Blob.bad => false)

theorem selectScan_purgeBad (params : PipelineInfoParams) :
    ∀ lb : List (Nat × Blob),
      selectScan params (purgeBad lb) = selectScan params lb := by
  intro lb
  induction lb with
  | nil => rfl
  | cons kv rest ih =>
    obtain ⟨k, b⟩ := kv
    cases b with
    | bad =>
      show selectScan params (purgeBad rest) = selectScan params rest
      exact ih
    | good g =>
      show selectScan params ((k, Blob.good g) :: purgeBad rest) =
        selectScan params ((k, Blob.good g) :: rest)
      cases hm : matchesListFilter params g with
      | true => rw [selectScan, if_pos hm, selectScan, if_pos hm, ih]
      | false =>
        rw [selectScan, if_neg (by simp [hm]), selectScan, if_neg (by simp [hm]), ih]

theorem getByParamScan_purgeBad (params : PipelineInfoParams) :
    ∀ lb : List (Nat × Blob),
      getByParamScan params (purgeBad lb) = getByParamScan params lb := by
  intro lb
  induction lb with
  | nil => rfl
  | cons kv rest ih =>
    obtain ⟨k, b⟩ := kv
    cases b with
    | bad =>
      show getByParamScan params (purgeBad rest) = getByParamScan params rest
      exact ih
    | good g =>
      show getByParamScan params ((k, Blob.good g) :: purgeBad rest) =
        getByParamScan params ((k, Blob.good g) :: rest)
      cases hm : matchesParamFilter params g with
      | true => rw [getByParamScan, if_pos hm, getByParamScan, if_pos hm]
      | false =>
        rw [getByParamScan, if_neg (by simp [hm]), getByParamScan,
          if_neg (by simp [hm]), ih]

def c8GoodA : PipelineInfo := PipelineInfo.mk 1 "pa" 0 0 0 1 0

def c8GoodB : PipelineInfo := PipelineInfo.mk 3 "pb" 0 0 0 1 0

def c8Bucket : LocalBucket :=
  [(1, Blob.good c8GoodA), (2, Blob.bad), (3, Blob.good c8GoodB)]

def c8Params : PipelineInfoParams := PipelineInfoParams.mk "" 0 0 0 false

/-- C8 counterexample: the bucket holds a malformed record at id 2 between
two well-formed ones.  `SelectList` does skip it and still returns both
well-formed matching records — but its log output is empty: the source's
only log statement (`log.Error` on a `View` error) is unreachable, and the
`err == nil` unmarshal guard skips malformed bytes silently, so nothing is
logged for the corrupt record, contradicting the claim's "logs it". -/
theorem c8_counterexample :
    aget c8Bucket 2 = some Blob.bad ∧
    (SelectList c8Params c8Bucket).1 = Except.ok [c8GoodA, c8GoodB] ∧
    (SelectList c8Params c8Bucket).2 = [] :=
  ⟨rfl, rfl, rfl⟩

/-- C8 amended: a full-partition scan (`SelectList` or `GetByParam`) skips
each malformed record silently — no log line is emitted for it — and
behaves exactly as it would on the bucket with the malformed records
removed, so every well-formed matching record is still returned and one
corrupt record never fails the scan (the scan's outcome is never an
error). -/
theorem c8_amended_scan_robust (params : PipelineInfoParams) (lb : LocalBucket) :
    selectScan params lb = selectScan params (purgeBad lb) ∧
    (SelectList params lb).1 = Except.ok (selectScan params (purgeBad lb)) ∧
    (SelectList params lb).2 = [] ∧
    GetByParam params lb = GetByParam params (purgeBad lb) ∧
    isErr (SelectList params lb).1 = false := by
  have hs := selectScan_purgeBad params lb
  refine ⟨hs.symm, ?_, rfl, ?_, rfl⟩
  · show Except.ok (selectScan params lb) = _
    rw [hs]
  · unfold GetByParam
    rw [getByParamScan_purgeBad params lb]

/-- The local bucket `OnSyncEvent` routes the event to. -/
def MetaState.bucketOf (st : MetaState) : SyncEventType → LocalBucket
  | SyncEventType.source => st.sourceB
  | SyncEventType.endpoint => st.endpointB
  | SyncEventType.pipeline => st.pipelineB

/-- The remote store `OnSyncEvent` routes the event to. -/
def MetaState.remoteOf (st : MetaState) : SyncEventType → RemotePipeline
  | SyncEventType.source => st.remoteSource
  | SyncEventType.endpoint => st.remoteEndpoint
  | SyncEventType.pipeline => st.remotePipeline

def c6State : MetaState :=
  MetaState.mk [] [] [] (RemotePipeline.mk false []) (RemotePipeline.mk false [])
    (RemotePipeline.mk false [])

/-- C6 counterexample: with the remote coordinator unreachable, full
reconciliation as driven by `RefreshMetadata` does not log-and-skip: the
very first failed `SelectAllDataVersion` is turned into `panic(...)` and
the process crashes, contradicting the claim that no process crash results
from a reconciliation failure. -/
theorem c6_counterexample :
    isErr c6State.remoteSource.selectAllDataVersion = true ∧
    RefreshMetadata c6State = RunOutcome.panicked "刷新[SourceInfo]数据失败" :=
  ⟨rfl, rfl⟩

/-- C6 amended: the two reconciliation drivers handle coordinator errors
differently.  `OnSyncEvent` (incremental) logs the error and skips: when
the dispatched `refreshOne` fails, the state is unchanged and a log line is
emitted, and the function never panics.  `RefreshMetadata` (full), by
contrast, panics — crashing the process — when the coordinator errors
(shown here for a failing `SelectAllDataVersion`; each of its six
error checks panics likewise). -/
theorem c6_amended_error_handling (st : MetaState) (event : SyncEvent) :
    (isErr (refreshOne event.Id event.Version (st.bucketOf event.Kind)
        (st.remoteOf event.Kind)) = true →
      (OnSyncEvent event st).1 = st ∧ (OnSyncEvent event st).2 ≠ []) ∧
    (isErr st.remoteSource.selectAllDataVersion = true →
      ∃ msg, RefreshMetadata st = RunOutcome.panicked msg) := by
  constructor
  · intro hf
    cases hk : event.Kind with
    | source =>
      rw [hk] at hf
      cases hro : refreshOne event.Id event.Version st.sourceB st.remoteSource with
      | ok b =>
        rw [show st.bucketOf SyncEventType.source = st.sourceB from rfl,
          show st.remoteOf SyncEventType.source = st.remoteSource from rfl,
          hro] at hf
        simp [isErr] at hf
      | error er => simp [OnSyncEvent, hk, hro]
    | endpoint =>
      rw [hk] at hf
      cases hro : refreshOne event.Id event.Version st.endpointB st.remoteEndpoint with
      | ok b =>
        rw [show st.bucketOf SyncEventType.endpoint = st.endpointB from rfl,
          show st.remoteOf SyncEventType.endpoint = st.remoteEndpoint from rfl,
          hro] at hf
        simp [isErr] at hf
      | error er => simp [OnSyncEvent, hk, hro]
    | pipeline =>
      rw [hk] at hf
      cases hro : refreshOne event.Id event.Version st.pipelineB st.remotePipeline with
      | ok b =>
        rw [show st.bucketOf SyncEventType.pipeline = st.pipelineB from rfl,
          show st.remoteOf SyncEventType.pipeline = st.remotePipeline from rfl,
          hro] at hf
        simp [isErr] at hf
      | error er => simp [OnSyncEvent, hk, hro]
  · intro hf
    cases hsel : st.remoteSource.selectAllDataVersion with
    | ok l =>
      rw [hsel] at hf
      simp [isErr] at hf
    | error er =>
      refine ⟨"刷新[SourceInfo]数据失败", ?_⟩
      unfold RefreshMetadata
      rw [hsel]

def c6Event : SyncEvent := SyncEvent.mk SyncEventType.pipeline 9 1

theorem c6_amended_witness :
    (OnSyncEvent c6Event c6State).1 = c6State ∧
    (OnSyncEvent c6Event c6State).2 ≠ [] ∧
    (∃ msg, RefreshMetadata c6State = RunOutcome.panicked msg) := by
  have h := c6_amended_error_handling c6State c6Event
  exact ⟨(h.1 rfl).1, (h.1 rfl).2, h.2 rfl⟩

/-- A manifest entry that `refreshAll` must fetch: the local copy is absent
or unreadable, or its version is strictly below the manifest version
(this is the negation of the `entity != nil && entity.DataVersion >=
standard.Version` skip condition). -/
def staleFor (lb : LocalBucket) (s : MetadataVersion) : Bool :=
  match exceptToOption (Get lb s.Id) with
  | some e => decide (e.DataVersion < s.Version)
  | none => true

theorem mem_keys_iff_aget_ne_none {α : Type} :
    ∀ (l : List (Nat × α)) (id : Nat),
      id ∈ l.map Prod.fst ↔ aget l id ≠ none := by
  intro l
  induction l with
  | nil => intro id; simp [aget]
  | cons kv rest ih =>
    intro id
    obtain ⟨k, w⟩ := kv
    by_cases hk : k = id
    · subst hk
      simp [aget]
    · simp [aget, hk, Ne.symm hk, ih id]

theorem aget_foldl_adel {α : Type} :
    ∀ (dels : List Nat) (l : List (Nat × α)) (id : Nat),
      aget (dels.foldl (fun b i => adel b i) l) id =
        if id ∈ dels then none else aget l id := by
  intro dels
  induction dels with
  | nil => intro l id; simp
  | cons d ds ih =>
    intro l id
    rw [List.foldl_cons, ih]
    by_cases hid : id = d
    · subst hid
      by_cases hmem : id ∈ ds
      · simp [hmem]
      · simp [hmem, aget_adel_self]
    · by_cases hmem : id ∈ ds
      · simp [hmem, hid]
      · simp [hmem, hid, aget_adel_ne _ _ _ hid]

theorem aget_foldl_aput_nin (f : PipelineInfo → Blob) :
    ∀ (ups : List PipelineInfo) (l : List (Nat × Blob)) (id : Nat),
      (∀ e ∈ ups, e.Id ≠ id) →
      aget (ups.foldl (fun b e => aput b e.Id (f e)) l) id = aget l id := by
  intro ups
  induction ups with
  | nil => intro l id _; rfl
  | cons u us ih =>
    intro l id h
    rw [List.foldl_cons, ih _ _ (fun e hm => h e (List.mem_cons_of_mem _ hm))]
    exact aget_aput_ne _ _ _ _ (Ne.symm (h u (List.mem_cons_self _ _)))

theorem aget_foldl_aput_mem (f : PipelineInfo → Blob) :
    ∀ (ups : List PipelineInfo) (l : List (Nat × Blob)) (e : PipelineInfo),
      e ∈ ups → (ups.map (fun u => u.Id)).Nodup →
      aget (ups.foldl (fun b u => aput b u.Id (f u)) l) e.Id = some (f e) := by
  intro ups
  induction ups with
  | nil =>
    intro l e h _
    cases h
  | cons u us ih =>
    intro l e h hnd
    rw [List.foldl_cons]
    rcases List.mem_cons.mp h with h1 | h2
    · subst h1
      have hnin : ∀ x ∈ us, x.Id ≠ e.Id := by
        intro x hx hEq
        have : e.Id ∈ us.map (fun u => u.Id) := by
          exact List.mem_map.mpr ⟨x, hx, hEq⟩
        exact (List.nodup_cons.mp hnd).1 this
      rw [aget_foldl_aput_nin f us _ _ hnin]
      exact aget_aput_self _ _ _
    · exact ih _ e h2 (List.nodup_cons.mp hnd).2

theorem filterMap_get_ids (r : RemotePipeline) :
    ∀ stales : List MetadataVersion,
      (∀ s ∈ stales, ∃ se, r.get s.Id = Except.ok se ∧ se.Id = s.Id) →
      (stales.filterMap (fun s => exceptToOption (r.get s.Id))).map
          (fun u => u.Id) =
        stales.map (fun s => s.Id) := by
  intro stales
  induction stales with
  | nil => intro _; rfl
  | cons s rest ih =>
    intro h
    obtain ⟨se, hse, hid⟩ := h s (List.mem_cons_self _ _)
    rw [List.filterMap_cons, hse]
    have ih2 := ih (fun x hx => h x (List.mem_cons_of_mem _ hx))
    simp only [exceptToOption, List.map_cons, hid] at ih2 ⊢
    rw [ih2]

theorem collectUpdates_spec (lb : LocalBucket) (r : RemotePipeline) :
    ∀ standards : List MetadataVersion,
      (∀ s ∈ standards, staleFor lb s = true → isErr (r.get s.Id) = false) →
      collectUpdates lb r standards =
        (Except.ok ((standards.filter (fun s => staleFor lb s)).filterMap
            (fun s => exceptToOption (r.get s.Id))),
          (standards.filter (fun s => staleFor lb s)).map (fun s => s.Id)) := by
  intro standards
  induction standards with
  | nil => intro _; rfl
  | cons s rest ih =>
    intro h
    have hrest : ∀ x ∈ rest, staleFor lb x = true → isErr (r.get x.Id) = false :=
      fun x hx => h x (List.mem_cons_of_mem _ hx)
    have ih2 := ih hrest
    cases hst : staleFor lb s with
    | false =>
      have hget : ∃ e, exceptToOption (Get lb s.Id) = some e ∧
          s.Version ≤ e.DataVersion := by
        have hst' := hst
        unfold staleFor at hst'
        cases hg : exceptToOption (Get lb s.Id) with
        | none => rw [hg] at hst'; cases hst'
        | some e =>
          rw [hg] at hst'
          exact ⟨e, rfl, not_lt.mp (of_decide_eq_false hst')⟩
      obtain ⟨e, hg, hle⟩ := hget
      simp only [collectUpdates, hg]
      rw [if_pos hle, ih2]
      simp [List.filter_cons, hst]
    | true =>
      have hre : isErr (r.get s.Id) = false := h s (List.mem_cons_self _ _) hst
      cases hro : r.get s.Id with
      | error er =>
        rw [hro] at hre
        simp [isErr] at hre
      | ok se =>
        cases hg : exceptToOption (Get lb s.Id) with
        | none =>
          simp only [collectUpdates, hg, hro]
          rw [ih2]
          simp [List.filter_cons, hst, List.filterMap_cons, hro, exceptToOption]
        | some e =>
          have hlt : e.DataVersion < s.Version := by
            have hst' := hst
            unfold staleFor at hst'
            rw [hg] at hst'
            exact of_decide_eq_true hst'
          simp only [collectUpdates, hg]
          rw [if_neg (not_le.mpr hlt)]
          simp only [hro]
          rw [ih2]
          simp [List.filter_cons, hst, List.filterMap_cons, hro, exceptToOption]

theorem mem_of_aget_eq_some {α : Type} :
    ∀ (l : List (Nat × α)) (id : Nat) (v : α),
      aget l id = some v → (id, v) ∈ l := by
  intro l
  induction l with
  | nil =>
    intro id v h
    simp [aget] at h
  | cons kv rest ih =>
    intro id v h
    obtain ⟨k, w⟩ := kv
    by_cases hk : k = id
    · subst hk
      rw [aget, if_pos rfl] at h
      cases h
      exact List.mem_cons_self _ _
    · rw [aget, if_neg hk] at h
      exact List.mem_cons_of_mem _ (ih id v h)

/-- C4: on an all-well-formed local bucket, with a duplicate-free manifest
and a remote that can serve every entry needing a fetch, `refreshAll`:
never fails; issues exactly one remote `get` per manifest entry whose local
copy is absent or strictly older than the manifest version (the fetch trace
is exactly the ids of those entries, and a fresh entry's id is never
fetched); afterwards every locally stored id absent from the manifest reads
as deleted, every stale manifest entry reads as the fetched remote body,
and every fresh manifest entry reads unchanged. -/
theorem c4_refreshAll_exact (standards : List MetadataVersion)
    (lb : LocalBucket) (r : RemotePipeline)
    (hGood : ∀ kv ∈ lb, kv.2 ≠ Blob.bad)
    (hNodupS : (standards.map (fun s => s.Id)).Nodup)
    (hRem : ∀ s ∈ standards, staleFor lb s = true →
      ∃ se, r.get s.Id = Except.ok se ∧ se.Id = s.Id) :
    isErr (refreshAll standards lb r).1 = false ∧
    (refreshAll standards lb r).2 =
      (standards.filter (fun s => staleFor lb s)).map (fun s => s.Id) ∧
    (∀ s ∈ standards, staleFor lb s = false →
      s.Id ∉ (refreshAll standards lb r).2) ∧
    (∀ s ∈ standards, (staleFor lb s = true ↔
      aget lb s.Id = none ∨
        ∃ e, aget lb s.Id = some (Blob.good e) ∧ e.DataVersion < s.Version)) ∧
    (∀ id, aget lb id ≠ none → (∀ s ∈ standards, s.Id ≠ id) →
      aget (localAfter lb (refreshAll standards lb r).1) id = none) ∧
    (∀ s ∈ standards, staleFor lb s = true → ∀ se, r.get s.Id = Except.ok se →
      aget (localAfter lb (refreshAll standards lb r).1) s.Id =
        some (marshalPipeline se)) ∧
    (∀ s ∈ standards, staleFor lb s = false →
      aget (localAfter lb (refreshAll standards lb r).1) s.Id = aget lb s.Id) := by
  have hRemOk : ∀ s ∈ standards, staleFor lb s = true →
      isErr (r.get s.Id) = false := by
    intro s hs hst
    obtain ⟨se, hse, _⟩ := hRem s hs hst
    rw [hse]
    rfl
  have hcu := collectUpdates_spec lb r standards hRemOk
  have hstalesRem : ∀ s ∈ standards.filter (fun s => staleFor lb s),
      ∃ se, r.get s.Id = Except.ok se ∧ se.Id = s.Id := by
    intro s hsmem
    have hm := List.mem_filter.mp hsmem
    exact hRem s hm.1 hm.2
  have hupsIds := filterMap_get_ids r _ hstalesRem
  have hndStale :
      ((standards.filter (fun s => staleFor lb s)).map (fun s => s.Id)).Nodup :=
    List.Nodup.sublist (List.Sublist.map _ (List.filter_sublist _)) hNodupS
  have hra : refreshAll standards lb r =
      (Except.ok
        (List.foldl (fun b e => aput b e.Id (marshalPipeline e))
          (List.foldl (fun b id => adel b id) lb
            (List.filter
              (fun id => !(standards.any (fun standard => standard.Id == id)))
              (lb.map (fun kv => kv.1))))
          (List.filterMap (fun s => exceptToOption (r.get s.Id))
            (standards.filter (fun s => staleFor lb s)))),
        (standards.filter (fun s => staleFor lb s)).map (fun s => s.Id)) := by
    simp only [refreshAll, hcu]
  refine ⟨?_, ?_, ?_, ?_, ?_, ?_, ?_⟩
  · rw [hra]
    rfl
  · rw [hra]
  · intro s hs hsf hmem
    rw [hra] at hmem
    obtain ⟨s', hs'm, hs'id⟩ := List.mem_map.mp hmem
    have hs'f := List.mem_filter.mp hs'm
    have : s' = s :=
      List.inj_on_of_nodup_map hNodupS hs'f.1 hs hs'id
    rw [this] at hs'f
    rw [hs'f.2] at hsf
    cases hsf
  · intro s hs
    constructor
    · intro hst
      cases haget : aget lb s.Id with
      | none => exact Or.inl rfl
      | some b =>
        cases b with
        | bad =>
          exact absurd rfl (hGood (s.Id, Blob.bad)
            (mem_of_aget_eq_some lb s.Id Blob.bad haget))
        | good e =>
          have hGet : Get lb s.Id = Except.ok e := by
            unfold Get
            rw [haget]
          unfold staleFor at hst
          rw [hGet] at hst
          exact Or.inr ⟨e, rfl, of_decide_eq_true (by simpa [exceptToOption] using hst)⟩
    · intro hor
      unfold staleFor
      rcases hor with hnone | ⟨e, hsome, hlt⟩
      · have hGet : Get lb s.Id = Except.error DaoErr.notFound := by
          unfold Get
          rw [hnone]
        rw [hGet]
        rfl
      · have hGet : Get lb s.Id = Except.ok e := by
          unfold Get
          rw [hsome]
        rw [hGet]
        simpa [exceptToOption] using hlt
  · intro id hne hnostd
    rw [hra]
    simp only [localAfter]
    have hupNe : ∀ u ∈ List.filterMap (fun s => exceptToOption (r.get s.Id))
        (standards.filter (fun s => staleFor lb s)), u.Id ≠ id := by
      intro u hu hEq
      have hmemIds : u.Id ∈
          (standards.filter (fun s => staleFor lb s)).map (fun s => s.Id) := by
        rw [← hupsIds]
        exact List.mem_map.mpr ⟨u, hu, rfl⟩
      obtain ⟨s', hs'm, hs'id⟩ := List.mem_map.mp hmemIds
      exact hnostd s' (List.mem_filter.mp hs'm).1 (by rw [hs'id, hEq])
    rw [aget_foldl_aput_nin _ _ _ _ hupNe, aget_foldl_adel]
    have hdmem : id ∈ List.filter
        (fun id => !(standards.any (fun standard => standard.Id == id)))
        (lb.map (fun kv => kv.1)) := by
      rw [List.mem_filter]
      constructor
      · exact (mem_keys_iff_aget_ne_none lb id).mpr hne
      · simp only [Bool.not_eq_true', List.any_eq_false, beq_iff_eq]
        intro s hs
        exact hnostd s hs
    rw [if_pos hdmem]
  · intro s hs hst se hse
    rw [hra]
    simp only [localAfter]
    obtain ⟨se', hse', hid'⟩ := hRem s hs hst
    have hsame : se' = se := by
      rw [hse] at hse'
      cases hse'
      rfl
    rw [hsame] at hid'
    have hmemU : se ∈ List.filterMap (fun s => exceptToOption (r.get s.Id))
        (standards.filter (fun s => staleFor lb s)) := by
      apply List.mem_filterMap.mpr
      refine ⟨s, List.mem_filter.mpr ⟨hs, hst⟩, ?_⟩
      rw [hse]
      rfl
    have hndU : ((List.filterMap (fun s => exceptToOption (r.get s.Id))
        (standards.filter (fun s => staleFor lb s))).map (fun u => u.Id)).Nodup := by
      rw [hupsIds]
      exact hndStale
    have := aget_foldl_aput_mem marshalPipeline _
      (List.foldl (fun b id => adel b id) lb
        (List.filter (fun id => !(standards.any (fun standard => standard.Id == id)))
          (lb.map (fun kv => kv.1)))) se hmemU hndU
    rw [← hid']
    exact this
  · intro s hs hsf
    rw [hra]
    simp only [localAfter]
    have hupNe : ∀ u ∈ List.filterMap (fun s => exceptToOption (r.get s.Id))
        (standards.filter (fun s => staleFor lb s)), u.Id ≠ s.Id := by
      intro u hu hEq
      have hmemIds : u.Id ∈
          (standards.filter (fun s => staleFor lb s)).map (fun s => s.Id) := by
        rw [← hupsIds]
        exact List.mem_map.mpr ⟨u, hu, rfl⟩
      obtain ⟨s', hs'm, hs'id⟩ := List.mem_map.mp hmemIds
      have hs'f := List.mem_filter.mp hs'm
      have heq2 : s' = s :=
        List.inj_on_of_nodup_map hNodupS hs'f.1 hs (by rw [hs'id, hEq])
      rw [heq2] at hs'f
      rw [hs'f.2] at hsf
      cases hsf
    rw [aget_foldl_aput_nin _ _ _ _ hupNe, aget_foldl_adel]
    have hdnmem : s.Id ∉ List.filter
        (fun id => !(standards.any (fun standard => standard.Id == id)))
        (lb.map (fun kv => kv.1)) := by
      intro hmem
      have hf := (List.mem_filter.mp hmem).2
      simp only [Bool.not_eq_true', List.any_eq_false, beq_iff_eq] at hf
      exact hf s hs rfl
    rw [if_neg hdnmem]

def c4E2old : PipelineInfo := PipelineInfo.mk 2 "p2" 0 0 0 1 3

def c4E4 : PipelineInfo := PipelineInfo.mk 4 "p4" 0 0 0 1 2

def c4E2new : PipelineInfo := PipelineInfo.mk 2 "p2" 0 0 0 1 5

def c4E3 : PipelineInfo := PipelineInfo.mk 3 "p3" 0 0 0 1 1

def c4Bucket : LocalBucket := [(2, Blob.good c4E2old), (4, Blob.good c4E4)]

def c4Remote : RemotePipeline := RemotePipeline.mk true [(2, c4E2new), (3, c4E3)]

def c4Manifest : List MetadataVersion :=
  [MetadataVersion.mk 2 5, MetadataVersion.mk 3 1]

theorem c4_witness :
    isErr (refreshAll c4Manifest c4Bucket c4Remote).1 = false ∧
    (refreshAll c4Manifest c4Bucket c4Remote).2 = [2, 3] ∧
    aget (localAfter c4Bucket (refreshAll c4Manifest c4Bucket c4Remote).1) 4 = none ∧
    aget (localAfter c4Bucket (refreshAll c4Manifest c4Bucket c4Remote).1) 2 =
      some (marshalPipeline c4E2new) ∧
    aget (localAfter c4Bucket (refreshAll c4Manifest c4Bucket c4Remote).1) 3 =
      some (marshalPipeline c4E3) := by
  have hrem : ∀ s ∈ c4Manifest, staleFor c4Bucket s = true →
      ∃ se, c4Remote.get s.Id = Except.ok se ∧ se.Id = s.Id := by
    intro s hs _
    rcases List.mem_cons.mp hs with h1 | hs2
    · exact ⟨c4E2new, by rw [h1]; rfl, by rw [h1]; rfl⟩
    · rcases List.mem_cons.mp hs2 with h2 | h3
      · exact ⟨c4E3, by rw [h2]; rfl, by rw [h2]; rfl⟩
      · cases h3
  have h := c4_refreshAll_exact c4Manifest c4Bucket c4Remote
    (by decide) (by decide) hrem
  refine ⟨h.1, ?_, ?_, ?_, ?_⟩
  · rw [h.2.1]
    rfl
  · exact h.2.2.2.2.1 4 (by decide) (by decide)
  · exact h.2.2.2.2.2.1 (MetadataVersion.mk 2 5) (by decide) (by decide) c4E2new rfl
  · exact h.2.2.2.2.2.1 (MetadataVersion.mk 3 1) (by decide) (by decide) c4E3 rfl
